import Mathlib

/-!
Verification of the region-fill engine of the coloring web app
(frontend/src/coloring.ts): background estimation, border-seeded
background-mask construction, and mask/tolerance-constrained flood fill.

The raster buffer is modelled as a total byte function `data : Nat -> Nat`
(index `(y*w+x)*4 + c` holds channel `c` of pixel `(x,y)`, as in the
`Uint8ClampedArray` of an `ImageData`).  Luminance `0.299R+0.587G+0.114B`
is kept exact by scaling by 1000 (`luminance1000`), so every comparison
against the thresholds 200, 230, 240, 220 and `lum(bg)-15` of the source
is the corresponding integer comparison scaled by 1000.  The two
breadth-first traversals of the source (mask construction and flood fill)
use explicit work queues exactly as the code does; the `Int32Array`
cursor queues are modelled as FIFO lists, and the loops run on a fuel of
`w*h`, which is proved sufficient to drain the queue where completeness
is needed.
-/

namespace ColoringTs

/-- An RGB color, three integer channels (0-255 in the application). -/
structure RGB where
  r : Nat
  g : Nat
  b : Nat
deriving DecidableEq

/-- Manhattan channel-sum distance between two RGB colors
(`colorDist` of coloring.ts, lines 9-14). -/
def colorDist (a b : RGB) : Nat :=
  ((a.r : Int) - b.r).natAbs + ((a.g : Int) - b.g).natAbs + ((a.b : Int) - b.b).natAbs

/-- Luminance `0.299*R + 0.587*G + 0.114*B` of coloring.ts line 88,
scaled by 1000 so it stays in `Nat` and all threshold comparisons are
exact. -/
def luminance1000 (c : RGB) : Nat :=
  299 * c.r + 587 * c.g + 114 * c.b

/-- A raster buffer: width, height and the flat RGBA byte array of an
`ImageData`, modelled as a total function from byte index to byte. -/
structure Img where
  w : Nat
  h : Nat
  data : Nat → Nat

/-- Point update of a byte/flag array (`data[i] = v`). -/
def upd {α : Type} (f : Nat → α) (i : Nat) (v : α) : Nat → α :=
  fun j => if j = i then v else f j

/-- Read the R,G,B bytes at byte offset `i` (`getRGB` of coloring.ts,
lines 16-18). -/
def getRGB (d : Nat → Nat) (i : Nat) : RGB :=
  ⟨d i, d (i + 1), d (i + 2)⟩

/-- The RGB color of pixel `(x,y)` of a buffer. -/
def pixRGB (img : Img) (x y : Nat) : RGB :=
  getRGB img.data ((y * img.w + x) * 4)

/-! ## Background mask construction (coloring.ts lines 24-82) -/

/-- The background-likeness test of `buildBackgroundMask` (lines 43-48):
channel-sum distance to `bg` at most `min tol 25`, and luminance at
least `max 200 (luminance bg - 15)` (both sides scaled by 1000). -/
def isBgLike (img : Img) (bg : RGB) (tol : Nat) (x y : Nat) : Bool :=
  decide (colorDist (pixRGB img x y) bg ≤ min tol 25 ∧
    max 200000 (luminance1000 bg - 15000) ≤ luminance1000 (pixRGB img x y))

/-- State of the mask-building BFS: the 0/1 mask (as a `Bool` flag per
pixel index) and the pending FIFO queue of pixel coordinates (the
`qx`/`qy` arrays with their `qs`/`qe` cursors). -/
structure MaskState where
  mask : Nat → Bool
  q : List (Nat × Nat)

/-- The `push` helper of `buildBackgroundMask` (lines 50-58): skip if
already marked, skip if not background-like, otherwise mark and
enqueue. -/
def maskPush (img : Img) (bg : RGB) (tol : Nat) (s : MaskState) (x y : Nat) : MaskState :=
  if s.mask (y * img.w + x) then s
  else if isBgLike img bg tol x y then
    ⟨upd s.mask (y * img.w + x) true, s.q ++ [(x, y)]⟩
  else s

/-- The border seeding loops of `buildBackgroundMask` (lines 61-68):
push `(x,0)` and `(x,h-1)` for every column, then `(0,y)` and
`(w-1,y)` for every row. -/
def maskSeed (img : Img) (bg : RGB) (tol : Nat) : MaskState :=
  let s1 := (List.range img.w).foldl
    (fun s x => maskPush img bg tol (maskPush img bg tol s x 0) x (img.h - 1))
    ⟨fun _ => false, []⟩
  (List.range img.h).foldl
    (fun s y => maskPush img bg tol (maskPush img bg tol s 0 y) (img.w - 1) y) s1

/-- One iteration body of the BFS loop (lines 75-78): push the four
in-range 4-neighbors of the dequeued pixel, in source order. -/
def maskStep (img : Img) (bg : RGB) (tol : Nat) (s : MaskState) (x y : Nat) : MaskState :=
  let s1 := if 0 < x then maskPush img bg tol s (x - 1) y else s
  let s2 := if x + 1 < img.w then maskPush img bg tol s1 (x + 1) y else s1
  let s3 := if 0 < y then maskPush img bg tol s2 x (y - 1) else s2
  if y + 1 < img.h then maskPush img bg tol s3 x (y + 1) else s3

/-- The BFS loop of `buildBackgroundMask` (lines 70-79), running on
explicit fuel; each iteration dequeues one pixel and pushes its
neighbors.  Fuel `w*h` is proved sufficient to drain the queue. -/
def maskRun (img : Img) (bg : RGB) (tol : Nat) : Nat → MaskState → MaskState
  | 0, s => s
  | fuel + 1, s =>
    match s.q with
    | [] => s
    | (x, y) :: rest => maskRun img bg tol fuel (maskStep img bg tol ⟨s.mask, rest⟩ x y)

/-- `buildBackgroundMask` (coloring.ts lines 24-82): the flag array of
border-connected background-like pixels. -/
def buildBackgroundMask (img : Img) (bg : RGB) (tol : Nat) : Nat → Bool :=
  (maskRun img bg tol (img.w * img.h) (maskSeed img bg tol)).mask

/-! ## Background estimation (coloring.ts lines 91-125) -/

/-- JavaScript `Math.round(a / n)` for nonnegative `a`, `n`:
round-half-up of the quotient, computed exactly in `Nat`. -/
def jsRound (a n : Nat) : Nat := (2 * a + n) / (2 * n)

/-- The sample coordinates of `estimateBackground` (lines 99-112), in
source order: four corners, four edge midpoints, then for each
`k < 20` one point on the top, bottom, left and right border edges at
position `⌊(w-1)*k/19⌋` (resp. `⌊(h-1)*k/19⌋`). -/
def estPts (w h : Nat) : List (Nat × Nat) :=
  [(0, 0), (w - 1, 0), (0, h - 1), (w - 1, h - 1),
   (w / 2, 0), (w / 2, h - 1), (0, h / 2), (w - 1, h / 2)]
  ++ (List.range 20).flatMap (fun k =>
    [((w - 1) * k / 19, 0), ((w - 1) * k / 19, h - 1),
     (0, (h - 1) * k / 19), (w - 1, (h - 1) * k / 19)])

/-- The sampled colors of `estimateBackground`. -/
def estSamples (img : Img) : List RGB :=
  (estPts img.w img.h).map fun q => pixRGB img q.1 q.2

/-- `estimateBackground` (coloring.ts lines 91-125): per-channel
rounded average of the border samples, and tolerance 55 when the
average is bright (`luminance > 220`), else 40. -/
def estimateBackground (img : Img) : RGB × Nat :=
  let samples := estSamples img
  let n := samples.length
  let bg : RGB := ⟨jsRound (samples.map RGB.r).sum n,
                   jsRound (samples.map RGB.g).sum n,
                   jsRound (samples.map RGB.b).sum n⟩
  (bg, if 220000 < luminance1000 bg then 55 else 40)

/-! ## Flood fill (coloring.ts lines 127-226) -/

/-- The 7x7 scan window offsets of the tap-retargeting search (lines
154-170), in source order: `dy` from -3 to 3 outer, `dx` from -3 to 3
inner. -/
def scanOffsets : List (Int × Int) :=
  (List.range 7).flatMap fun dy => (List.range 7).map fun dx => ((dx : Int) - 3, (dy : Int) - 3)

/-- One cell test of the retargeting search (lines 158-168): `none`
when out of range, background-masked, or not bright enough
(luminance < 240); otherwise the pixel index. -/
def brightCand (img : Img) (bgMask : Nat → Bool) (nx ny : Int) : Option Nat :=
  if nx < 0 ∨ ny < 0 ∨ (img.w : Int) ≤ nx ∨ (img.h : Int) ≤ ny then none
  else if bgMask (ny.toNat * img.w + nx.toNat) then none
  else if 240000 ≤ luminance1000 (getRGB img.data ((ny.toNat * img.w + nx.toNat) * 4)) then
    some (ny.toNat * img.w + nx.toNat)
  else none

/-- The retargeting search (lines 154-170): the first hit of the scan
window, if any (the source breaks out of both loops at the first
match). -/
def findBright (img : Img) (bgMask : Nat → Bool) (x y : Nat) : Option Nat :=
  scanOffsets.findSome? fun d => brightCand img bgMask ((x : Int) + d.1) ((y : Int) + d.2)

/-- The (possibly retargeted) starting pixel index of a fill (lines
150-172): if the tapped pixel has luminance < 230, retarget to the
first bright non-background pixel of the 7x7 window when one exists. -/
def fillStart (img : Img) (bgMask : Nat → Bool) (x y : Nat) : Nat :=
  if luminance1000 (getRGB img.data ((y * img.w + x) * 4)) < 230000 then
    match findBright img bgMask x y with
    | some p => p
    | none => y * img.w + x
  else y * img.w + x

/-- State of the flood-fill loop: the evolving byte array, the
`seen` flag array and the pending FIFO queue of pixel indices. -/
structure FillState where
  data : Nat → Nat
  seen : Nat → Bool
  q : List Nat

/-- The `push` helper of the fill (lines 197-208): mark seen first,
then drop background-masked pixels and pixels not within `colorTol`
of the starting color; otherwise enqueue. -/
def fillPush (bgMask : Nat → Bool) (target : RGB) (colorTol : Nat) (st : FillState)
    (p : Nat) : FillState :=
  if st.seen p then st
  else if bgMask p then ⟨st.data, upd st.seen p true, st.q⟩
  else if colorDist (getRGB st.data (p * 4)) target ≤ colorTol then
    ⟨st.data, upd st.seen p true, st.q ++ [p]⟩
  else ⟨st.data, upd st.seen p true, st.q⟩

/-- The `paint` helper (lines 190-195): overwrite the R,G,B bytes of
pixel `p` with the fill color.  The alpha byte is not written. -/
def paintAt (d : Nat → Nat) (fill : RGB) (p : Nat) : Nat → Nat :=
  upd (upd (upd d (p * 4) fill.r) (p * 4 + 1) fill.g) (p * 4 + 2) fill.b

/-- One iteration body of the fill loop (lines 213-222): paint the
dequeued pixel `p` and push its four in-range 4-neighbors
(`px = p % w`, `py = ⌊p / w⌋`), in source order. -/
def fillStep (w h : Nat) (fill : RGB) (bgMask : Nat → Bool) (target : RGB)
    (colorTol : Nat) (st : FillState) (p : Nat) : FillState :=
  let st1 : FillState := ⟨paintAt st.data fill p, st.seen, st.q⟩
  let st2 := if 0 < p % w then fillPush bgMask target colorTol st1 (p - 1) else st1
  let st3 := if p % w + 1 < w then fillPush bgMask target colorTol st2 (p + 1) else st2
  let st4 := if 0 < p / w then fillPush bgMask target colorTol st3 (p - w) else st3
  if p / w + 1 < h then fillPush bgMask target colorTol st4 (p + w) else st4

/-- The fill loop (lines 212-223) on explicit fuel: dequeue a pixel,
paint it, and push its neighbors. -/
def fillRun (w h : Nat) (fill : RGB) (bgMask : Nat → Bool) (target : RGB)
    (colorTol : Nat) : Nat → FillState → FillState
  | 0, st => st
  | fuel + 1, st =>
    match st.q with
    | [] => st
    | p :: rest =>
      fillRun w h fill bgMask target colorTol fuel
        (fillStep w h fill bgMask target colorTol ⟨st.data, st.seen, rest⟩ p)

/-- `floodFillWithBgMask` (coloring.ts lines 127-226): early exits for
out-of-range taps, background-masked taps and an already-matching
(possibly retargeted) start color; otherwise the constrained BFS fill.
Returns the final byte array. -/
def floodFillWithBgMask (img : Img) (x y : Int) (fill : RGB) (bgMask : Nat → Bool)
    (colorTol : Nat) : Nat → Nat :=
  if x < 0 ∨ y < 0 ∨ (img.w : Int) ≤ x ∨ (img.h : Int) ≤ y then img.data
  else if bgMask (y.toNat * img.w + x.toNat) then img.data
  else if getRGB img.data (fillStart img bgMask x.toNat y.toNat * 4) = fill then img.data
  else
    (fillRun img.w img.h fill bgMask
      (getRGB img.data (fillStart img bgMask x.toNat y.toNat * 4)) colorTol
      (img.w * img.h)
      (fillPush bgMask (getRGB img.data (fillStart img bgMask x.toNat y.toNat * 4)) colorTol
        ⟨img.data, fun _ => false, []⟩ (fillStart img bgMask x.toNat y.toNat))).data

/-! ## Spec-side characterization of the background mask (claim C1)

The spec describes the mask as the set of pixels reachable from a
border pixel through a 4-connected path of background-like pixels.
`Adj` and `Reach` formalize that wording; the main theorem
`mask_iff_reach` relates it to the BFS of the source. -/

/-- 4-connectivity of two pixel coordinates. -/
def Adj (x y u v : Nat) : Prop :=
  (v = y ∧ (u + 1 = x ∨ u = x + 1)) ∨ (u = x ∧ (v + 1 = y ∨ v = y + 1))

/-- Spec wording: pixel `(x,y)` is reachable from some canvas-border
pixel via a 4-connected path of in-range pixels that are all
background-like (the path includes its endpoints). -/
inductive Reach (img : Img) (bg : RGB) (tol : Nat) : Nat → Nat → Prop
  | border (x y : Nat) : x < img.w → y < img.h →
      (x = 0 ∨ x = img.w - 1 ∨ y = 0 ∨ y = img.h - 1) →
      isBgLike img bg tol x y = true → Reach img bg tol x y
  | step (x y u v : Nat) : Reach img bg tol x y → Adj x y u v →
      u < img.w → v < img.h → isBgLike img bg tol u v = true → Reach img bg tol u v

/-! ## Basic lemmas -/

lemma upd_self {α : Type} (f : Nat → α) (i : Nat) (v : α) : upd f i v i = v := by
  simp [upd]

lemma upd_other {α : Type} (f : Nat → α) {i j : Nat} (h : j ≠ i) (v : α) :
    upd f i v j = f j := by
  simp [upd, h]

lemma idx_inj {w x x' y y' : Nat} (hx : x < w) (hx' : x' < w)
    (h : y * w + x = y' * w + x') : x = x' ∧ y = y' := by
  have hw : 0 < w := Nat.lt_of_le_of_lt (Nat.zero_le x) hx
  have e1 : (y * w + x) % w = x := by
    rw [Nat.add_comm, Nat.add_mul_mod_self_right, Nat.mod_eq_of_lt hx]
  have e2 : (y' * w + x') % w = x' := by
    rw [Nat.add_comm, Nat.add_mul_mod_self_right, Nat.mod_eq_of_lt hx']
  have d1 : (y * w + x) / w = y := by
    rw [Nat.add_comm, Nat.add_mul_div_right _ _ hw, Nat.div_eq_of_lt hx]; omega
  have d2 : (y' * w + x') / w = y' := by
    rw [Nat.add_comm, Nat.add_mul_div_right _ _ hw, Nat.div_eq_of_lt hx']; omega
  constructor
  · rw [← e1, ← e2, h]
  · rw [← d1, ← d2, h]

lemma idx_lt {w h x y : Nat} (hx : x < w) (hy : y < h) : y * w + x < w * h := by
  have h1 : (y + 1) * w = y * w + w := by ring
  have h2 : (y + 1) * w ≤ h * w := Nat.mul_le_mul_right w hy
  have h3 : h * w = w * h := Nat.mul_comm h w
  omega

/-! ## maskPush lemmas -/

section MaskLemmas

variable (img : Img) (bg : RGB) (tol : Nat)

lemma maskPush_mask (s : MaskState) (u v p : Nat) :
    (maskPush img bg tol s u v).mask p = true ↔
      s.mask p = true ∨ (p = v * img.w + u ∧ isBgLike img bg tol u v = true) := by
  unfold maskPush
  split_ifs with h1 h2
  · constructor
    · exact fun h => Or.inl h
    · rintro (h | ⟨rfl, _⟩)
      · exact h
      · exact h1
  · by_cases hp : p = v * img.w + u
    · subst hp
      simp [upd_self, h2]
    · simp [upd_other _ hp, hp]
  · simp [h2]

lemma maskPush_mono {s : MaskState} {u v p : Nat} (h : s.mask p = true) :
    (maskPush img bg tol s u v).mask p = true :=
  (maskPush_mask img bg tol s u v p).mpr (Or.inl h)

lemma maskPush_marks {s : MaskState} {u v : Nat} (h : isBgLike img bg tol u v = true) :
    (maskPush img bg tol s u v).mask (v * img.w + u) = true :=
  (maskPush_mask img bg tol s u v _).mpr (Or.inr ⟨rfl, h⟩)

lemma maskPush_q_cases (s : MaskState) (u v : Nat) :
    (maskPush img bg tol s u v).q = s.q ∨
      ((maskPush img bg tol s u v).q = s.q ++ [(u, v)] ∧
        isBgLike img bg tol u v = true) := by
  unfold maskPush
  split_ifs with h1 h2
  · exact Or.inl rfl
  · exact Or.inr ⟨rfl, h2⟩
  · exact Or.inl rfl

lemma maskPush_q_sup {s : MaskState} {u v : Nat} {e : Nat × Nat} (h : e ∈ s.q) :
    e ∈ (maskPush img bg tol s u v).q := by
  rcases maskPush_q_cases img bg tol s u v with hc | ⟨hc, _⟩
  · rw [hc]; exact h
  · rw [hc]; exact List.mem_append_left _ h

lemma maskPush_new_mem (s : MaskState) (u v p : Nat)
    (h : (maskPush img bg tol s u v).mask p = true) :
    s.mask p = true ∨ (p = v * img.w + u ∧ (u, v) ∈ (maskPush img bg tol s u v).q) := by
  unfold maskPush at h ⊢
  split_ifs at h ⊢ with h1 h2
  · exact Or.inl h
  · by_cases hp : p = v * img.w + u
    · exact Or.inr ⟨hp, by simp⟩
    · exact Or.inl (by simpa [upd_other _ hp] using h)
  · exact Or.inl h

end MaskLemmas

/-! ## BFS invariants -/

/-- Queue invariant: every queued coordinate is in range and already
marked in the mask. -/
def InvA (img : Img) (s : MaskState) : Prop :=
  ∀ e ∈ s.q, e.1 < img.w ∧ e.2 < img.h ∧ s.mask (e.2 * img.w + e.1) = true

/-- Soundness invariant: every marked in-range pixel is border-reachable. -/
def InvB (img : Img) (bg : RGB) (tol : Nat) (s : MaskState) : Prop :=
  ∀ x y, x < img.w → y < img.h → s.mask (y * img.w + x) = true → Reach img bg tol x y

/-- Border invariant: every background-like border pixel is marked. -/
def InvC (img : Img) (bg : RGB) (tol : Nat) (s : MaskState) : Prop :=
  ∀ x y, x < img.w → y < img.h → (x = 0 ∨ x = img.w - 1 ∨ y = 0 ∨ y = img.h - 1) →
    isBgLike img bg tol x y = true → s.mask (y * img.w + x) = true

/-- Closure invariant: a marked pixel either has all its in-range
background-like neighbors marked, or is still pending in the queue. -/
def InvD (img : Img) (bg : RGB) (tol : Nat) (s : MaskState) : Prop :=
  ∀ x y, x < img.w → y < img.h → s.mask (y * img.w + x) = true →
    ∀ u v, Adj x y u v → u < img.w → v < img.h → isBgLike img bg tol u v = true →
      s.mask (v * img.w + u) = true ∨ (x, y) ∈ s.q

section InvPush

variable (img : Img) (bg : RGB) (tol : Nat)

lemma invA_push {s : MaskState} {a b : Nat} (ha : a < img.w) (hb : b < img.h)
    (h : InvA img s) : InvA img (maskPush img bg tol s a b) := by
  intro e he
  rcases maskPush_q_cases img bg tol s a b with hc | ⟨hc, hbg⟩
  · rw [hc] at he
    obtain ⟨h1, h2, h3⟩ := h e he
    exact ⟨h1, h2, maskPush_mono img bg tol h3⟩
  · rw [hc] at he
    rcases List.mem_append.mp he with he' | he'
    · obtain ⟨h1, h2, h3⟩ := h e he'
      exact ⟨h1, h2, maskPush_mono img bg tol h3⟩
    · have : e = (a, b) := List.mem_singleton.mp he'
      subst this
      exact ⟨ha, hb, maskPush_marks img bg tol hbg⟩

lemma invB_push {s : MaskState} {a b : Nat} (ha : a < img.w) (hb : b < img.h)
    (hre : isBgLike img bg tol a b = true → Reach img bg tol a b)
    (h : InvB img bg tol s) : InvB img bg tol (maskPush img bg tol s a b) := by
  intro x y hx hy hm
  rcases (maskPush_mask img bg tol s a b _).mp hm with hold | ⟨heq, hbg⟩
  · exact h x y hx hy hold
  · obtain ⟨e1, e2⟩ := idx_inj hx ha heq
    subst e1; subst e2
    exact hre hbg

lemma invC_push {s : MaskState} {a b : Nat} (h : InvC img bg tol s) :
    InvC img bg tol (maskPush img bg tol s a b) :=
  fun x y hx hy hbd hbg => maskPush_mono img bg tol (h x y hx hy hbd hbg)

lemma invD_push {s : MaskState} {a b : Nat} (ha : a < img.w) (hb : b < img.h)
    (h : InvD img bg tol s) : InvD img bg tol (maskPush img bg tol s a b) := by
  intro x y hx hy hm u v hadj hu hv hbg
  have hq_lift : (x, y) ∈ s.q → (x, y) ∈ (maskPush img bg tol s a b).q :=
    fun hmem => maskPush_q_sup img bg tol hmem
  rcases maskPush_new_mem img bg tol s a b _ hm with hold | ⟨heq, hmem⟩
  · rcases h x y hx hy hold u v hadj hu hv hbg with hnb | hqq
    · exact Or.inl (maskPush_mono img bg tol hnb)
    · exact Or.inr (hq_lift hqq)
  · obtain ⟨e1, e2⟩ := idx_inj hx ha heq
    subst e1; subst e2
    exact Or.inr hmem

/-! Conditional-push versions, matching the guarded pushes of
`maskStep` and the seeding loops. -/

lemma condPush_mono {c : Prop} [Decidable c] {s : MaskState} {a b p : Nat}
    (h : s.mask p = true) :
    (if c then maskPush img bg tol s a b else s).mask p = true := by
  split_ifs
  · exact maskPush_mono img bg tol h
  · exact h

lemma condPush_q_sup {c : Prop} [Decidable c] {s : MaskState} {a b : Nat} {e : Nat × Nat}
    (h : e ∈ s.q) : e ∈ (if c then maskPush img bg tol s a b else s).q := by
  split_ifs
  · exact maskPush_q_sup img bg tol h
  · exact h

lemma invA_condPush {c : Prop} [Decidable c] {s : MaskState} {a b : Nat}
    (ha : c → a < img.w) (hb : c → b < img.h) (h : InvA img s) :
    InvA img (if c then maskPush img bg tol s a b else s) := by
  split_ifs with hc
  · exact invA_push img bg tol (ha hc) (hb hc) h
  · exact h

lemma invB_condPush {c : Prop} [Decidable c] {s : MaskState} {a b : Nat}
    (ha : c → a < img.w) (hb : c → b < img.h)
    (hre : c → isBgLike img bg tol a b = true → Reach img bg tol a b)
    (h : InvB img bg tol s) :
    InvB img bg tol (if c then maskPush img bg tol s a b else s) := by
  split_ifs with hc
  · exact invB_push img bg tol (ha hc) (hb hc) (hre hc) h
  · exact h

lemma invC_condPush {c : Prop} [Decidable c] {s : MaskState} {a b : Nat}
    (h : InvC img bg tol s) :
    InvC img bg tol (if c then maskPush img bg tol s a b else s) := by
  split_ifs
  · exact invC_push img bg tol h
  · exact h

lemma invD_condPush {c : Prop} [Decidable c] {s : MaskState} {a b : Nat}
    (ha : c → a < img.w) (hb : c → b < img.h) (h : InvD img bg tol s) :
    InvD img bg tol (if c then maskPush img bg tol s a b else s) := by
  split_ifs with hc
  · exact invD_push img bg tol (ha hc) (hb hc) h
  · exact h

lemma condPush_new_mem {c : Prop} [Decidable c] {s : MaskState} {a b : Nat} (p : Nat)
    (ha : c → a < img.w) (hb : c → b < img.h)
    (h : (if c then maskPush img bg tol s a b else s).mask p = true) :
    s.mask p = true ∨
      ∃ a' b', a' < img.w ∧ b' < img.h ∧ p = b' * img.w + a' ∧
        (a', b') ∈ (if c then maskPush img bg tol s a b else s).q := by
  split_ifs at h ⊢ with hc
  · rcases maskPush_new_mem img bg tol s a b p h with hold | ⟨heq, hmem⟩
    · exact Or.inl hold
    · exact Or.inr ⟨a, b, ha hc, hb hc, heq, hmem⟩
  · exact Or.inl h

end InvPush

/-! ## maskStep lemmas -/

section StepLemmas

variable (img : Img) (bg : RGB) (tol : Nat)

lemma maskStep_mono {s : MaskState} {x y p : Nat} (h : s.mask p = true) :
    (maskStep img bg tol s x y).mask p = true := by
  simp only [maskStep]
  apply condPush_mono
  apply condPush_mono
  apply condPush_mono
  apply condPush_mono
  exact h

lemma maskStep_q_sup {s : MaskState} {x y : Nat} {e : Nat × Nat} (h : e ∈ s.q) :
    e ∈ (maskStep img bg tol s x y).q := by
  simp only [maskStep]
  apply condPush_q_sup
  apply condPush_q_sup
  apply condPush_q_sup
  apply condPush_q_sup
  exact h

lemma maskStep_marks_adj {s : MaskState} {x y u v : Nat}
    (hadj : Adj x y u v) (hu : u < img.w) (hv : v < img.h)
    (hbg : isBgLike img bg tol u v = true) :
    (maskStep img bg tol s x y).mask (v * img.w + u) = true := by
  simp only [maskStep]
  rcases hadj with ⟨hvy, hux | hux⟩ | ⟨hux, hvy | hvy⟩
  · subst hvy
    have hc1 : 0 < x := by omega
    apply condPush_mono
    apply condPush_mono
    apply condPush_mono
    rw [if_pos hc1, show x - 1 = u from by omega]
    exact maskPush_marks img bg tol hbg
  · subst hvy; subst hux
    have hc2 : x + 1 < img.w := hu
    apply condPush_mono
    apply condPush_mono
    rw [if_pos hc2]
    exact maskPush_marks img bg tol hbg
  · subst hux
    have hc3 : 0 < y := by omega
    apply condPush_mono
    rw [if_pos hc3, show y - 1 = v from by omega]
    exact maskPush_marks img bg tol hbg
  · subst hux; subst hvy
    have hc4 : y + 1 < img.h := hv
    rw [if_pos hc4]
    exact maskPush_marks img bg tol hbg

lemma maskStep_new_mem {s : MaskState} {x y : Nat} (p : Nat)
    (hx : x < img.w) (hy : y < img.h)
    (h : (maskStep img bg tol s x y).mask p = true) :
    s.mask p = true ∨
      ∃ a b, a < img.w ∧ b < img.h ∧ p = b * img.w + a ∧
        (a, b) ∈ (maskStep img bg tol s x y).q := by
  simp only [maskStep] at h ⊢
  rcases condPush_new_mem img bg tol p (fun _ => hx) (fun hc => hc) h with h3 | hfound
  · rcases condPush_new_mem img bg tol p (fun _ => hx) (fun _ => by omega) h3 with h2 | hfound
    · rcases condPush_new_mem img bg tol p (fun hc => hc) (fun _ => hy) h2 with h1 | hfound
      · rcases condPush_new_mem img bg tol p (fun _ => by omega) (fun _ => hy) h1 with h0 | hfound
        · exact Or.inl h0
        · obtain ⟨a, b, ha, hb, hpe, hmem⟩ := hfound
          exact Or.inr ⟨a, b, ha, hb, hpe,
            condPush_q_sup img bg tol (condPush_q_sup img bg tol
              (condPush_q_sup img bg tol hmem))⟩
      · obtain ⟨a, b, ha, hb, hpe, hmem⟩ := hfound
        exact Or.inr ⟨a, b, ha, hb, hpe,
          condPush_q_sup img bg tol (condPush_q_sup img bg tol hmem)⟩
    · obtain ⟨a, b, ha, hb, hpe, hmem⟩ := hfound
      exact Or.inr ⟨a, b, ha, hb, hpe, condPush_q_sup img bg tol hmem⟩
  · obtain ⟨a, b, ha, hb, hpe, hmem⟩ := hfound
    exact Or.inr ⟨a, b, ha, hb, hpe, hmem⟩

lemma maskStep_invA {s : MaskState} {x y : Nat} (hx : x < img.w) (hy : y < img.h)
    (h : InvA img s) : InvA img (maskStep img bg tol s x y) := by
  simp only [maskStep]
  apply invA_condPush img bg tol (fun _ => hx) (fun hc => hc)
  apply invA_condPush img bg tol (fun _ => hx) (fun _ => by omega)
  apply invA_condPush img bg tol (fun hc => hc) (fun _ => hy)
  apply invA_condPush img bg tol (fun _ => by omega) (fun _ => hy)
  exact h

lemma maskStep_invB {s : MaskState} {x y : Nat} (hx : x < img.w) (hy : y < img.h)
    (hr : Reach img bg tol x y) (h : InvB img bg tol s) :
    InvB img bg tol (maskStep img bg tol s x y) := by
  simp only [maskStep]
  apply invB_condPush img bg tol (fun _ => hx) (fun hc => hc)
    (fun hc hbg => Reach.step x y x (y + 1) hr (Or.inr ⟨rfl, Or.inr rfl⟩) hx hc hbg)
  apply invB_condPush img bg tol (fun _ => hx) (fun _ => by omega)
    (fun hc hbg => Reach.step x y x (y - 1) hr (Or.inr ⟨rfl, Or.inl (by omega)⟩)
      hx (by omega) hbg)
  apply invB_condPush img bg tol (fun hc => hc) (fun _ => hy)
    (fun hc hbg => Reach.step x y (x + 1) y hr (Or.inl ⟨rfl, Or.inr rfl⟩) hc hy hbg)
  apply invB_condPush img bg tol (fun _ => by omega) (fun _ => hy)
    (fun hc hbg => Reach.step x y (x - 1) y hr (Or.inl ⟨rfl, Or.inl (by omega)⟩)
      (by omega) hy hbg)
  exact h

lemma maskStep_invC {s : MaskState} {x y : Nat} (h : InvC img bg tol s) :
    InvC img bg tol (maskStep img bg tol s x y) := by
  simp only [maskStep]
  apply invC_condPush
  apply invC_condPush
  apply invC_condPush
  apply invC_condPush
  exact h

lemma maskStep_invD {s : MaskState} {x y : Nat} (hx : x < img.w) (hy : y < img.h)
    (hD : InvD img bg tol ⟨s.mask, (x, y) :: s.q⟩) :
    InvD img bg tol (maskStep img bg tol s x y) := by
  intro a b haw hbh hm u v hadj hu hv hbg
  rcases maskStep_new_mem img bg tol _ hx hy hm with hold | ⟨a', b', ha', hb', hpe, hmem⟩
  · by_cases hab : (a, b) = (x, y)
    · have hax : a = x := congrArg Prod.fst hab
      have hby : b = y := congrArg Prod.snd hab
      subst hax; subst hby
      exact Or.inl (maskStep_marks_adj img bg tol hadj hu hv hbg)
    · rcases hD a b haw hbh hold u v hadj hu hv hbg with hnb | hq
      · exact Or.inl (maskStep_mono img bg tol hnb)
      · rcases List.mem_cons.mp hq with h1 | h1
        · exact absurd h1 hab
        · exact Or.inr (maskStep_q_sup img bg tol h1)
  · obtain ⟨e1, e2⟩ := idx_inj haw ha' hpe
    subst e1; subst e2
    exact Or.inr hmem

end StepLemmas

/-! ## Fold helpers for the seeding loops -/

lemma foldl_inv {β : Type} {P : MaskState → Prop} (f : MaskState → β → MaskState) :
    ∀ (l : List β) (s : MaskState), P s → (∀ s a, a ∈ l → P s → P (f s a)) →
      P (l.foldl f s) := by
  intro l
  induction l with
  | nil => intro s h _; exact h
  | cons a t ih =>
    intro s h hstep
    exact ih _ (hstep s a (List.mem_cons_self a t) h)
      (fun s' a' ha' h' => hstep s' a' (List.mem_cons_of_mem a ha') h')

lemma foldl_mask_mono {β : Type} (f : MaskState → β → MaskState)
    (hmono : ∀ s a p, s.mask p = true → (f s a).mask p = true) :
    ∀ (l : List β) (s : MaskState) (p : Nat), s.mask p = true →
      (l.foldl f s).mask p = true := by
  intro l s p h
  exact foldl_inv (P := fun s => s.mask p = true) f l s h (fun s' a _ h' => hmono s' a p h')

lemma foldl_mark {β : Type} (f : MaskState → β → MaskState)
    (hmono : ∀ s a p, s.mask p = true → (f s a).mask p = true)
    {a : β} {p : Nat} (hmark : ∀ s, (f s a).mask p = true) :
    ∀ (l : List β), a ∈ l → ∀ s, (l.foldl f s).mask p = true := by
  intro l
  induction l with
  | nil => intro h; cases h
  | cons b t ih =>
    intro hmem s
    rcases List.mem_cons.mp hmem with rfl | hmem'
    · simp only [List.foldl_cons]
      exact foldl_mask_mono f hmono t (f s a) p (hmark s)
    · simp only [List.foldl_cons]
      exact ih hmem' (f s b)

/-! ## Seeding establishes the invariants -/

section SeedLemmas

variable (img : Img) (bg : RGB) (tol : Nat)

lemma seed_invA (hw : 0 < img.w) (hh : 0 < img.h) : InvA img (maskSeed img bg tol) := by
  unfold maskSeed
  refine foldl_inv _ _ _ (foldl_inv _ _ _ ?_ ?_) ?_
  · intro e he; cases he
  · intro s a ha hP
    have haw : a < img.w := List.mem_range.mp ha
    exact invA_push img bg tol haw (by omega) (invA_push img bg tol haw hh hP)
  · intro s a ha hP
    have hah : a < img.h := List.mem_range.mp ha
    exact invA_push img bg tol (by omega) hah (invA_push img bg tol hw hah hP)

lemma seed_invB (hw : 0 < img.w) (hh : 0 < img.h) :
    InvB img bg tol (maskSeed img bg tol) := by
  unfold maskSeed
  refine foldl_inv _ _ _ (foldl_inv _ _ _ ?_ ?_) ?_
  · intro x y _ _ hm; cases hm
  · intro s a ha hP
    have haw : a < img.w := List.mem_range.mp ha
    refine invB_push img bg tol haw (by omega)
      (fun hbg => Reach.border a (img.h - 1) haw (by omega)
        (Or.inr (Or.inr (Or.inr rfl))) hbg) ?_
    exact invB_push img bg tol haw hh
      (fun hbg => Reach.border a 0 haw hh (Or.inr (Or.inr (Or.inl rfl))) hbg) hP
  · intro s a ha hP
    have hah : a < img.h := List.mem_range.mp ha
    refine invB_push img bg tol (by omega) hah
      (fun hbg => Reach.border (img.w - 1) a (by omega) hah
        (Or.inr (Or.inl rfl)) hbg) ?_
    exact invB_push img bg tol hw hah
      (fun hbg => Reach.border 0 a hw hah (Or.inl rfl) hbg) hP

lemma seed_invD (hw : 0 < img.w) (hh : 0 < img.h) :
    InvD img bg tol (maskSeed img bg tol) := by
  unfold maskSeed
  refine foldl_inv _ _ _ (foldl_inv _ _ _ ?_ ?_) ?_
  · intro x y _ _ hm; cases hm
  · intro s a ha hP
    have haw : a < img.w := List.mem_range.mp ha
    exact invD_push img bg tol haw (by omega) (invD_push img bg tol haw hh hP)
  · intro s a ha hP
    have hah : a < img.h := List.mem_range.mp ha
    exact invD_push img bg tol (by omega) hah (invD_push img bg tol hw hah hP)

lemma seed_invC (hw : 0 < img.w) (hh : 0 < img.h) :
    InvC img bg tol (maskSeed img bg tol) := by
  intro x y hx hy hbd hbg
  unfold maskSeed
  have fmono : ∀ (s : MaskState) (a : Nat) (p : Nat), s.mask p = true →
      ((fun (s : MaskState) (x : Nat) =>
        maskPush img bg tol (maskPush img bg tol s x 0) x (img.h - 1)) s a).mask p = true :=
    fun s a p h => maskPush_mono img bg tol (maskPush_mono img bg tol h)
  have gmono : ∀ (s : MaskState) (a : Nat) (p : Nat), s.mask p = true →
      ((fun (s : MaskState) (y : Nat) =>
        maskPush img bg tol (maskPush img bg tol s 0 y) (img.w - 1) y) s a).mask p = true :=
    fun s a p h => maskPush_mono img bg tol (maskPush_mono img bg tol h)
  rcases hbd with hx0 | hxw | hy0 | hyh
  · subst hx0
    exact foldl_mark _ gmono
      (fun s => maskPush_mono img bg tol (maskPush_marks img bg tol hbg))
      (List.range img.h) (List.mem_range.mpr hy) _
  · subst hxw
    exact foldl_mark _ gmono (fun s => maskPush_marks img bg tol hbg)
      (List.range img.h) (List.mem_range.mpr hy) _
  · subst hy0
    apply foldl_mask_mono _ gmono
    exact foldl_mark _ fmono
      (fun s => maskPush_mono img bg tol (maskPush_marks img bg tol hbg))
      (List.range img.w) (List.mem_range.mpr hx) _
  · subst hyh
    apply foldl_mask_mono _ gmono
    exact foldl_mark _ fmono (fun s => maskPush_marks img bg tol hbg)
      (List.range img.w) (List.mem_range.mpr hx) _

end SeedLemmas

/-! ## Termination: the queue drains within w*h iterations -/

/-- Number of unmarked in-range pixel indices. -/
def unmarked (img : Img) (s : MaskState) : Nat :=
  ((Finset.range (img.w * img.h)).filter fun p => s.mask p = false).card

/-- BFS variant: queue length plus unmarked pixel count.  Every push
preserves it, every dequeue decreases it by one. -/
def maskMeasure (img : Img) (s : MaskState) : Nat :=
  s.q.length + unmarked img s

section MeasureLemmas

variable (img : Img) (bg : RGB) (tol : Nat)

lemma maskPush_measure {s : MaskState} {a b : Nat} (ha : a < img.w) (hb : b < img.h) :
    maskMeasure img (maskPush img bg tol s a b) = maskMeasure img s := by
  unfold maskPush
  split_ifs with h1 h2
  · rfl
  · have hidx : b * img.w + a < img.w * img.h := idx_lt ha hb
    have hmf : s.mask (b * img.w + a) = false := by simpa using h1
    have hmem : b * img.w + a ∈
        (Finset.range (img.w * img.h)).filter (fun p => s.mask p = false) := by
      simp [Finset.mem_filter, Finset.mem_range, hidx, hmf]
    have hfe : ((Finset.range (img.w * img.h)).filter
          fun p => (upd s.mask (b * img.w + a) true) p = false)
        = ((Finset.range (img.w * img.h)).filter
          fun p => s.mask p = false).erase (b * img.w + a) := by
      ext j
      by_cases hj : j = b * img.w + a
      · subst hj
        simp [Finset.mem_filter, Finset.mem_erase, upd_self]
      · simp only [Finset.mem_filter, Finset.mem_erase, Finset.mem_range,
          upd_other _ hj, hj]
        tauto
    have hpos : 0 < ((Finset.range (img.w * img.h)).filter
        fun p => s.mask p = false).card := Finset.card_pos.mpr ⟨_, hmem⟩
    simp only [maskMeasure, unmarked, List.length_append, List.length_cons,
      List.length_nil, hfe, Finset.card_erase_of_mem hmem]
    omega
  · rfl

lemma condPush_measure {c : Prop} [Decidable c] {s : MaskState} {a b : Nat}
    (ha : c → a < img.w) (hb : c → b < img.h) :
    maskMeasure img (if c then maskPush img bg tol s a b else s) = maskMeasure img s := by
  split_ifs with hc
  · exact maskPush_measure img bg tol (ha hc) (hb hc)
  · rfl

lemma maskStep_measure {s : MaskState} {x y : Nat} (hx : x < img.w) (hy : y < img.h) :
    maskMeasure img (maskStep img bg tol s x y) = maskMeasure img s := by
  simp only [maskStep]
  rw [condPush_measure img bg tol (fun _ => hx) (fun hc => hc),
    condPush_measure img bg tol (fun _ => hx) (fun _ => by omega),
    condPush_measure img bg tol (fun hc => hc) (fun _ => hy),
    condPush_measure img bg tol (fun _ => by omega) (fun _ => hy)]

lemma seed_measure (hw : 0 < img.w) (hh : 0 < img.h) :
    maskMeasure img (maskSeed img bg tol) = img.w * img.h := by
  unfold maskSeed
  refine foldl_inv (P := fun s => maskMeasure img s = img.w * img.h) _ _ _
    (foldl_inv (P := fun s => maskMeasure img s = img.w * img.h) _ _ _ ?_ ?_) ?_
  · simp [maskMeasure, unmarked]
  · intro s a ha hP
    have haw : a < img.w := List.mem_range.mp ha
    rw [maskPush_measure img bg tol haw (by omega),
      maskPush_measure img bg tol haw hh, hP]
  · intro s a ha hP
    have hah : a < img.h := List.mem_range.mp ha
    rw [maskPush_measure img bg tol (by omega) hah,
      maskPush_measure img bg tol hw hah, hP]

end MeasureLemmas

/-! ## Running the BFS -/

/-- The conjunction of the four BFS invariants. -/
def MaskInv (img : Img) (bg : RGB) (tol : Nat) (s : MaskState) : Prop :=
  InvA img s ∧ InvB img bg tol s ∧ InvC img bg tol s ∧ InvD img bg tol s

section RunLemmas

variable (img : Img) (bg : RGB) (tol : Nat)

lemma maskRun_zero (s : MaskState) : maskRun img bg tol 0 s = s := rfl

lemma maskRun_succ_nil (m : Nat → Bool) (fuel : Nat) :
    maskRun img bg tol (fuel + 1) ⟨m, []⟩ = ⟨m, []⟩ := rfl

lemma maskRun_succ_cons (m : Nat → Bool) (x y : Nat) (rest : List (Nat × Nat)) (fuel : Nat) :
    maskRun img bg tol (fuel + 1) ⟨m, (x, y) :: rest⟩ =
      maskRun img bg tol fuel (maskStep img bg tol ⟨m, rest⟩ x y) := rfl

lemma maskRun_inv : ∀ (fuel : Nat) (s : MaskState), MaskInv img bg tol s →
    MaskInv img bg tol (maskRun img bg tol fuel s) := by
  intro fuel
  induction fuel with
  | zero => intro s h; exact h
  | succ fuel ih =>
    intro s h
    obtain ⟨m, q⟩ := s
    cases q with
    | nil => rw [maskRun_succ_nil]; exact h
    | cons e rest =>
      obtain ⟨x, y⟩ := e
      rw [maskRun_succ_cons]
      obtain ⟨hA, hB, hC, hD⟩ := h
      obtain ⟨hx, hy, hm⟩ := hA (x, y) (List.mem_cons_self _ _)
      apply ih
      refine ⟨?_, ?_, ?_, ?_⟩
      · exact maskStep_invA img bg tol hx hy
          (fun e he => hA e (List.mem_cons_of_mem _ he))
      · exact maskStep_invB img bg tol hx hy (hB x y hx hy hm)
          (fun a b haw hbh hm' => hB a b haw hbh hm')
      · exact maskStep_invC img bg tol
          (fun a b haw hbh hbd hbg => hC a b haw hbh hbd hbg)
      · exact maskStep_invD img bg tol hx hy hD

lemma maskRun_drain : ∀ (fuel : Nat) (s : MaskState), InvA img s →
    maskMeasure img s ≤ fuel → (maskRun img bg tol fuel s).q = [] := by
  intro fuel
  induction fuel with
  | zero =>
    intro s hA hm
    have hlen : s.q.length = 0 := by
      unfold maskMeasure at hm; omega
    rw [maskRun_zero]
    exact List.length_eq_zero.mp hlen
  | succ fuel ih =>
    intro s hA hm
    obtain ⟨m, q⟩ := s
    cases q with
    | nil => rw [maskRun_succ_nil]
    | cons e rest =>
      obtain ⟨x, y⟩ := e
      obtain ⟨hx, hy, _⟩ := hA (x, y) (List.mem_cons_self _ _)
      rw [maskRun_succ_cons]
      apply ih
      · exact maskStep_invA img bg tol hx hy
          (fun e he => hA e (List.mem_cons_of_mem _ he))
      · have h1 : maskMeasure img (maskStep img bg tol ⟨m, rest⟩ x y)
            = maskMeasure img ⟨m, rest⟩ := maskStep_measure img bg tol hx hy
        have h2 : maskMeasure img (⟨m, (x, y) :: rest⟩ : MaskState)
            = maskMeasure img ⟨m, rest⟩ + 1 := by
          simp [maskMeasure, List.length_cons, unmarked]
          omega
        omega

lemma reach_range {x y : Nat} (h : Reach img bg tol x y) : x < img.w ∧ y < img.h := by
  cases h with
  | border _ _ hx hy _ _ => exact ⟨hx, hy⟩
  | step _ _ _ _ _ _ hu hv _ => exact ⟨hu, hv⟩

/-- Main correctness of the mask BFS: an in-range pixel is marked iff it
is border-reachable through background-like pixels. -/
lemma mask_iff_reach (hw : 0 < img.w) (hh : 0 < img.h) (x y : Nat)
    (hx : x < img.w) (hy : y < img.h) :
    buildBackgroundMask img bg tol (y * img.w + x) = true ↔ Reach img bg tol x y := by
  have hseed : MaskInv img bg tol (maskSeed img bg tol) :=
    ⟨seed_invA img bg tol hw hh, seed_invB img bg tol hw hh,
     seed_invC img bg tol hw hh, seed_invD img bg tol hw hh⟩
  have hfin := maskRun_inv img bg tol (img.w * img.h) (maskSeed img bg tol) hseed
  have hdrain : (maskRun img bg tol (img.w * img.h) (maskSeed img bg tol)).q = [] :=
    maskRun_drain img bg tol _ _ hseed.1 (le_of_eq (seed_measure img bg tol hw hh))
  obtain ⟨hA, hB, hC, hD⟩ := hfin
  constructor
  · exact hB x y hx hy
  · intro hr
    clear hx hy
    induction hr with
    | border a b haw hbh hbd hbg => exact hC a b haw hbh hbd hbg
    | step a b u v hr' hadj hu hv hbg ih =>
      obtain ⟨haw, hbh⟩ := reach_range img bg tol hr'
      rcases hD a b haw hbh ih u v hadj hu hv hbg with hok | hq
      · exact hok
      · rw [hdrain] at hq; cases hq

end RunLemmas

/-! ## Flood-fill invariants (claims C2, C4) -/

/-- The R,G,B bytes of pixel `p` agree between two byte arrays. -/
def rgbSame (d d0 : Nat → Nat) (p : Nat) : Prop :=
  d (p * 4) = d0 (p * 4) ∧ d (p * 4 + 1) = d0 (p * 4 + 1) ∧ d (p * 4 + 2) = d0 (p * 4 + 2)

/-- The R,G,B bytes of pixel `p` hold the fill color. -/
def rgbFilled (d : Nat → Nat) (fill : RGB) (p : Nat) : Prop :=
  d (p * 4) = fill.r ∧ d (p * 4 + 1) = fill.g ∧ d (p * 4 + 2) = fill.b

/-- Invariant of the fill loop relative to the original bytes `d0`:
queued pixels are never background-masked; background-masked pixels
keep their original R,G,B bytes; no alpha byte is ever written; and
every pixel either keeps its original R,G,B bytes or holds the fill
color. -/
def FillInv (d0 : Nat → Nat) (bgMask : Nat → Bool) (fill : RGB) (st : FillState) : Prop :=
  (∀ p ∈ st.q, bgMask p = false) ∧
  (∀ p, bgMask p = true → rgbSame st.data d0 p) ∧
  (∀ p, st.data (p * 4 + 3) = d0 (p * 4 + 3)) ∧
  (∀ p, rgbSame st.data d0 p ∨ rgbFilled st.data fill p)

section FillLemmas

variable (d0 : Nat → Nat) (bgMask : Nat → Bool) (fill target : RGB) (colorTol : Nat)

lemma paintAt_ne (d : Nat → Nat) (p i : Nat) (h0 : i ≠ p * 4) (h1 : i ≠ p * 4 + 1)
    (h2 : i ≠ p * 4 + 2) : paintAt d fill p i = d i := by
  unfold paintAt
  rw [upd_other _ h2, upd_other _ h1, upd_other _ h0]

lemma paintAt_r (d : Nat → Nat) (p : Nat) : paintAt d fill p (p * 4) = fill.r := by
  unfold paintAt
  rw [upd_other _ (by omega), upd_other _ (by omega), upd_self]

lemma paintAt_g (d : Nat → Nat) (p : Nat) : paintAt d fill p (p * 4 + 1) = fill.g := by
  unfold paintAt
  rw [upd_other _ (by omega), upd_self]

lemma paintAt_b (d : Nat → Nat) (p : Nat) : paintAt d fill p (p * 4 + 2) = fill.b := by
  unfold paintAt
  rw [upd_self]

lemma fillPush_data (st : FillState) (p : Nat) :
    (fillPush bgMask target colorTol st p).data = st.data := by
  unfold fillPush
  split_ifs <;> rfl

lemma fillPush_q_sub (st : FillState) (p : Nat) :
    ∀ e ∈ (fillPush bgMask target colorTol st p).q,
      e ∈ st.q ∨ (e = p ∧ bgMask p = false) := by
  unfold fillPush
  split_ifs with h1 h2 h3
  · exact fun e he => Or.inl he
  · exact fun e he => Or.inl he
  · intro e he
    rcases List.mem_append.mp he with he' | he'
    · exact Or.inl he'
    · exact Or.inr ⟨List.mem_singleton.mp he', by simpa using h2⟩
  · exact fun e he => Or.inl he

lemma fillPush_inv {st : FillState} (p : Nat)
    (h : FillInv d0 bgMask fill st) :
    FillInv d0 bgMask fill (fillPush bgMask target colorTol st p) := by
  obtain ⟨hA, hB, hC, hD⟩ := h
  refine ⟨?_, ?_, ?_, ?_⟩
  · intro e he
    rcases fillPush_q_sub bgMask target colorTol st p e he with he' | ⟨rfl, hm⟩
    · exact hA e he'
    · exact hm
  · rw [fillPush_data]; exact hB
  · rw [fillPush_data]; exact hC
  · rw [fillPush_data]; exact hD

lemma fillStep_inv (w h : Nat) {st : FillState} {p : Nat}
    (hpmask : bgMask p = false) (hInv : FillInv d0 bgMask fill st) :
    FillInv d0 bgMask fill (fillStep w h fill bgMask target colorTol st p) := by
  obtain ⟨hA, hB, hC, hD⟩ := hInv
  have hne3 : ∀ p' c, c < 3 → p' ≠ p →
      paintAt st.data fill p (p' * 4 + c) = st.data (p' * 4 + c) := by
    intro p' c hc hne
    exact paintAt_ne fill _ _ _ (by omega) (by omega) (by omega)
  have h1 : FillInv d0 bgMask fill ⟨paintAt st.data fill p, st.seen, st.q⟩ := by
    refine ⟨hA, ?_, ?_, ?_⟩
    · intro p' hp'
      have hne : p' ≠ p := by
        intro hc; rw [hc, hpmask] at hp'; cases hp'
      obtain ⟨e0, e1, e2⟩ := hB p' hp'
      refine ⟨?_, ?_, ?_⟩
      · show paintAt st.data fill p (p' * 4) = d0 (p' * 4)
        rw [show p' * 4 = p' * 4 + 0 from by omega, hne3 p' 0 (by omega) hne]
        simpa using e0
      · show paintAt st.data fill p (p' * 4 + 1) = d0 (p' * 4 + 1)
        rw [hne3 p' 1 (by omega) hne]; exact e1
      · show paintAt st.data fill p (p' * 4 + 2) = d0 (p' * 4 + 2)
        rw [hne3 p' 2 (by omega) hne]; exact e2
    · intro p'
      show paintAt st.data fill p (p' * 4 + 3) = d0 (p' * 4 + 3)
      rw [paintAt_ne fill _ _ _ (by omega) (by omega) (by omega)]
      exact hC p'
    · intro p'
      by_cases hp : p' = p
      · subst hp
        exact Or.inr ⟨paintAt_r fill _ _, paintAt_g fill _ _, paintAt_b fill _ _⟩
      · rcases hD p' with ⟨e0, e1, e2⟩ | ⟨e0, e1, e2⟩
        · refine Or.inl ⟨?_, ?_, ?_⟩
          · show paintAt st.data fill p (p' * 4) = d0 (p' * 4)
            rw [show p' * 4 = p' * 4 + 0 from by omega, hne3 p' 0 (by omega) hp]
            simpa using e0
          · show paintAt st.data fill p (p' * 4 + 1) = d0 (p' * 4 + 1)
            rw [hne3 p' 1 (by omega) hp]; exact e1
          · show paintAt st.data fill p (p' * 4 + 2) = d0 (p' * 4 + 2)
            rw [hne3 p' 2 (by omega) hp]; exact e2
        · refine Or.inr ⟨?_, ?_, ?_⟩
          · show paintAt st.data fill p (p' * 4) = fill.r
            rw [show p' * 4 = p' * 4 + 0 from by omega, hne3 p' 0 (by omega) hp]
            simpa using e0
          · show paintAt st.data fill p (p' * 4 + 1) = fill.g
            rw [hne3 p' 1 (by omega) hp]; exact e1
          · show paintAt st.data fill p (p' * 4 + 2) = fill.b
            rw [hne3 p' 2 (by omega) hp]; exact e2
  simp only [fillStep]
  have hcond : ∀ (c : Prop) (inst : Decidable c) (st' : FillState) (a : Nat),
      FillInv d0 bgMask fill st' →
      FillInv d0 bgMask fill (if c then fillPush bgMask target colorTol st' a else st') := by
    intro c inst st' a hst'
    split_ifs
    · exact fillPush_inv d0 bgMask fill target colorTol a hst'
    · exact hst'
  exact hcond _ _ _ _ (hcond _ _ _ _ (hcond _ _ _ _ (hcond _ _ _ _ h1)))

lemma fillRun_zero (w h : Nat) (st : FillState) :
    fillRun w h fill bgMask target colorTol 0 st = st := rfl

lemma fillRun_succ_nil (w h : Nat) (d : Nat → Nat) (sn : Nat → Bool) (fuel : Nat) :
    fillRun w h fill bgMask target colorTol (fuel + 1) ⟨d, sn, []⟩ = ⟨d, sn, []⟩ := rfl

lemma fillRun_succ_cons (w h : Nat) (d : Nat → Nat) (sn : Nat → Bool) (p : Nat)
    (rest : List Nat) (fuel : Nat) :
    fillRun w h fill bgMask target colorTol (fuel + 1) ⟨d, sn, p :: rest⟩ =
      fillRun w h fill bgMask target colorTol fuel
        (fillStep w h fill bgMask target colorTol ⟨d, sn, rest⟩ p) := rfl

lemma fillRun_inv (w h : Nat) : ∀ (fuel : Nat) (st : FillState),
    FillInv d0 bgMask fill st →
    FillInv d0 bgMask fill (fillRun w h fill bgMask target colorTol fuel st) := by
  intro fuel
  induction fuel with
  | zero => exact fun st hst => hst
  | succ fuel ih =>
    intro st hst
    obtain ⟨d, sn, q⟩ := st
    cases q with
    | nil => rw [fillRun_succ_nil]; exact hst
    | cons p rest =>
      rw [fillRun_succ_cons]
      apply ih
      obtain ⟨hA, hB, hC, hD⟩ := hst
      have hpmask : bgMask p = false := hA p (List.mem_cons_self _ _)
      exact fillStep_inv d0 bgMask fill target colorTol w h hpmask
        ⟨fun e he => hA e (List.mem_cons_of_mem _ he), hB, hC, hD⟩

/-- The invariant holds for the final state of any fill call that
reaches the traversal. -/
lemma floodFill_inv (img : Img) (x y : Int) :
    FillInv img.data bgMask fill
      (fillRun img.w img.h fill bgMask
        (getRGB img.data (fillStart img bgMask x.toNat y.toNat * 4)) colorTol
        (img.w * img.h)
        (fillPush bgMask (getRGB img.data (fillStart img bgMask x.toNat y.toNat * 4))
          colorTol ⟨img.data, fun _ => false, []⟩
          (fillStart img bgMask x.toNat y.toNat))) := by
  apply fillRun_inv
  apply fillPush_inv
  refine ⟨?_, ?_, ?_, ?_⟩
  · intro e he; cases he
  · exact fun p _ => ⟨rfl, rfl, rfl⟩
  · exact fun p => rfl
  · exact fun p => Or.inl ⟨rfl, rfl, rfl⟩

end FillLemmas

section FloodTop

variable (img : Img) (x y : Int) (fill : RGB) (bgMask : Nat → Bool) (colorTol : Nat)

/-- Every fill call either returns the buffer unchanged (one of the
three early exits) or returns the data of a state satisfying the fill
invariant. -/
lemma floodFill_result :
    floodFillWithBgMask img x y fill bgMask colorTol = img.data ∨
      ∃ st : FillState, FillInv img.data bgMask fill st ∧
        floodFillWithBgMask img x y fill bgMask colorTol = st.data := by
  unfold floodFillWithBgMask
  split_ifs with h1 h2 h3
  · exact Or.inl rfl
  · exact Or.inl rfl
  · exact Or.inl rfl
  · exact Or.inr ⟨_, floodFill_inv bgMask fill colorTol img x y, rfl⟩

lemma floodFill_noop_masked
    (h : bgMask (y.toNat * img.w + x.toNat) = true) :
    floodFillWithBgMask img x y fill bgMask colorTol = img.data := by
  unfold floodFillWithBgMask
  split_ifs <;> rfl

lemma floodFill_noop_target
    (h : getRGB img.data (fillStart img bgMask x.toNat y.toNat * 4) = fill) :
    floodFillWithBgMask img x y fill bgMask colorTol = img.data := by
  unfold floodFillWithBgMask
  split_ifs <;> rfl

lemma floodFill_noop_outside
    (h : x < 0 ∨ y < 0 ∨ (img.w : Int) ≤ x ∨ (img.h : Int) ≤ y) :
    floodFillWithBgMask img x y fill bgMask colorTol = img.data := by
  unfold floodFillWithBgMask
  rw [if_pos h]

end FloodTop

/-! ## estimateBackground lemmas (claims C9, C10) -/

/-- Spec wording of the sample set (claim C9): the four corners, the
four edge midpoints, and for each border edge 20 evenly spaced points
(at floor-interpolated positions `⌊(w-1)k/19⌋`, `⌊(h-1)k/19⌋`),
grouped edge by edge. -/
def specEstPts (w h : Nat) : List (Nat × Nat) :=
  [(0, 0), (w - 1, 0), (0, h - 1), (w - 1, h - 1)]
  ++ [(w / 2, 0), (w / 2, h - 1), (0, h / 2), (w - 1, h / 2)]
  ++ (List.range 20).map (fun k => ((w - 1) * k / 19, 0))
  ++ (List.range 20).map (fun k => ((w - 1) * k / 19, h - 1))
  ++ (List.range 20).map (fun k => (0, (h - 1) * k / 19))
  ++ (List.range 20).map (fun k => (w - 1, (h - 1) * k / 19))

lemma len_flatMap4 {α β : Type} (F G H J : α → β) (l : List α) :
    (l.flatMap fun k => [F k, G k, H k, J k]).length = 4 * l.length := by
  induction l with
  | nil => rfl
  | cons a t ih =>
    simp only [List.flatMap_cons, List.length_append, List.length_cons,
      List.length_nil, ih, List.length_cons]
    omega

lemma sum_flatMap4 {α : Type} (F G H J : α → Nat) (l : List α) :
    (l.flatMap fun k => [F k, G k, H k, J k]).sum =
      (l.map F).sum + (l.map G).sum + (l.map H).sum + (l.map J).sum := by
  induction l with
  | nil => rfl
  | cons a t ih =>
    simp only [List.flatMap_cons, List.sum_append, List.sum_cons, List.sum_nil,
      List.map_cons, ih]
    omega

lemma estPts_length (w h : Nat) : (estPts w h).length = 88 := by
  unfold estPts
  rw [List.length_append, len_flatMap4]
  simp

lemma est_channel_sum (ch : RGB → Nat) (img : Img) :
    ((estSamples img).map ch).sum =
      ((specEstPts img.w img.h).map fun q => ch (pixRGB img q.1 q.2)).sum := by
  unfold estSamples estPts specEstPts
  simp only [List.map_append, List.map_map, List.sum_append, List.map_cons,
    List.map_nil, List.sum_cons, List.sum_nil, List.map_flatMap, Function.comp]
  rw [sum_flatMap4]
  simp only [Function.comp_def]
  omega

lemma estSamples_length (img : Img) : (estSamples img).length = 88 := by
  unfold estSamples
  rw [List.length_map, estPts_length]

/-! ## Retargeting machinery (claim C8) -/

/-- Candidate test of the retargeting search, as a Boolean predicate on
window coordinates: in range, not background-masked, luminance at
least 240. -/
def candB (img : Img) (bgMask : Nat → Bool) (nx ny : Int) : Bool :=
  !(decide (nx < 0 ∨ ny < 0 ∨ (img.w : Int) ≤ nx ∨ (img.h : Int) ≤ ny)) &&
  !(bgMask (ny.toNat * img.w + nx.toNat)) &&
  decide (240000 ≤ luminance1000 (getRGB img.data ((ny.toNat * img.w + nx.toNat) * 4)))

/-- Amended-spec retargeting: the first candidate of the 7x7 window in
row-major scan order (`dy` outer from -3 to 3, `dx` inner from -3 to
3), or the tap itself when no candidate exists. -/
def specRetarget (img : Img) (bgMask : Nat → Bool) (x y : Nat) : Nat :=
  match scanOffsets.find? (fun d => candB img bgMask ((x : Int) + d.1) ((y : Int) + d.2)) with
  | some d => ((y : Int) + d.2).toNat * img.w + ((x : Int) + d.1).toNat
  | none => y * img.w + x

lemma brightCand_eq (img : Img) (bgMask : Nat → Bool) (nx ny : Int) :
    brightCand img bgMask nx ny =
      (if candB img bgMask nx ny then some (ny.toNat * img.w + nx.toNat) else none) := by
  unfold brightCand candB
  by_cases h1 : nx < 0 ∨ ny < 0 ∨ (img.w : Int) ≤ nx ∨ (img.h : Int) ≤ ny
  · simp [h1]
  · by_cases h2 : bgMask (ny.toNat * img.w + nx.toNat) = true
    · simp [h1, h2]
    · by_cases h3 : 240000 ≤ luminance1000 (getRGB img.data ((ny.toNat * img.w + nx.toNat) * 4))
      · simp [h1, h2, h3]
      · simp [h1, h2, h3]

lemma findSome?_if {α β : Type} (p : α → Bool) (g : α → β) (l : List α) :
    (l.findSome? fun a => if p a then some (g a) else none) = (l.find? p).map g := by
  induction l with
  | nil => rfl
  | cons a t ih =>
    by_cases hp : p a = true
    · simp [List.findSome?_cons, List.find?_cons, hp]
    · simp [List.findSome?_cons, List.find?_cons, hp, ih]

lemma fillStart_eq_specRetarget (img : Img) (bgMask : Nat → Bool) (x y : Nat)
    (h : luminance1000 (getRGB img.data ((y * img.w + x) * 4)) < 230000) :
    fillStart img bgMask x y = specRetarget img bgMask x y := by
  unfold fillStart specRetarget findBright
  rw [if_pos h]
  have he : (fun d : Int × Int => brightCand img bgMask ((x : Int) + d.1) ((y : Int) + d.2))
      = fun d : Int × Int =>
        if candB img bgMask ((x : Int) + d.1) ((y : Int) + d.2) then
          some (((y : Int) + d.2).toNat * img.w + ((x : Int) + d.1).toNat)
        else none :=
    funext fun d => brightCand_eq img bgMask _ _
  rw [he, findSome?_if (fun d : Int × Int => candB img bgMask ((x : Int) + d.1) ((y : Int) + d.2))
    (fun d : Int × Int => ((y : Int) + d.2).toNat * img.w + ((x : Int) + d.1).toNat)]
  cases hf : scanOffsets.find?
      (fun d : Int × Int => candB img bgMask ((x : Int) + d.1) ((y : Int) + d.2)) with
  | none => rfl
  | some d => rfl

/-! ## Concrete instances used by the scenario claim, witnesses and
counterexamples -/

/-- The 10x10 scenario buffer of the spec: all white, fully opaque,
with a 1-pixel black square outline 2 pixels in from the edge
(pixels with `x` or `y` equal to 2 or 7 inside the 2..7 square). -/
def img10 : Img :=
  ⟨10, 10, fun i =>
    let p := i / 4
    let x := p % 10
    let y := p / 10
    if i % 4 = 3 then 255
    else if (2 ≤ x ∧ x ≤ 7 ∧ 2 ≤ y ∧ y ≤ 7) ∧ (x = 2 ∨ x = 7 ∨ y = 2 ∨ y = 7) then 0
    else 255⟩

/-- Indicator of the outer 2-pixel ring of the 10x10 scenario. -/
def ring2 (p : Nat) : Bool :=
  decide (p % 10 ≤ 1 ∨ 8 ≤ p % 10 ∨ p / 10 ≤ 1 ∨ 8 ≤ p / 10)

/-- Expected bytes after filling the interior of the 10x10 scenario
with red: the 4x4 inner white square (coordinates 3..6) gets R,G,B =
229,57,53 with alpha untouched; everything else keeps its bytes. -/
def fill10expected (i : Nat) : Nat :=
  let p := i / 4
  let x := p % 10
  let y := p / 10
  let c := i % 4
  if 3 ≤ x ∧ x ≤ 6 ∧ 3 ≤ y ∧ y ≤ 6 ∧ c ≤ 2 then
    (if c = 0 then 229 else if c = 1 then 57 else 53)
  else img10.data i

/-- A 1x1 opaque white buffer. -/
def imgW1 : Img := ⟨1, 1, fun i => 255⟩

/-- A 1x1 opaque red buffer (the palette red 229,57,53). -/
def imgR1 : Img := ⟨1, 1, fun i =>
  if i = 0 then 229 else if i = 1 then 57 else if i = 2 then 53 else 255⟩

/-- A 1x1 buffer whose single pixel is fully transparent black. -/
def imgT : Img := ⟨1, 1, fun _ => 0⟩

/-- A 1x1 black buffer with alpha byte 123. -/
def imgA : Img := ⟨1, 1, fun i => if i = 3 then 123 else 0⟩

/-- A 1x1 opaque black buffer. -/
def imgB : Img := ⟨1, 1, fun i => if i % 4 = 3 then 255 else 0⟩

/-- A 3x1 buffer: white, black, white, all opaque.  Two white regions
separated by a black pixel. -/
def img3 : Img := ⟨3, 1, fun i =>
  if i % 4 = 3 then 255 else if i / 4 = 1 then 0 else 255⟩

/-- `img3` after one fill at (0,0) with red: used to probe a second,
identical fill call. -/
def img3b : Img :=
  ⟨3, 1, floodFillWithBgMask img3 0 0 ⟨229, 57, 53⟩ (fun _ => false) 30⟩

/-- A 7x4 buffer, all black opaque except bright white pixels at (0,0)
and (3,2).  Tapping (3,3) exercises the retargeting scan. -/
def img74 : Img := ⟨7, 4, fun i =>
  if i % 4 = 3 then 255 else if i / 4 = 0 ∨ i / 4 = 17 then 255 else 0⟩

/-- Projection of `estimateBackground` onto its color component. -/
lemma estimateBackground_fst (img : Img) :
    (estimateBackground img).1 =
      ⟨jsRound ((estSamples img).map RGB.r).sum (estSamples img).length,
       jsRound ((estSamples img).map RGB.g).sum (estSamples img).length,
       jsRound ((estSamples img).map RGB.b).sum (estSamples img).length⟩ := rfl

/-- Projection of `estimateBackground` onto its tolerance component. -/
lemma estimateBackground_snd (img : Img) :
    (estimateBackground img).2 =
      (if 220000 < luminance1000 (estimateBackground img).1 then 55 else 40) := rfl

/-! ## Claim theorems -/

/-- C1: `buildBackgroundMask` computes exactly the border-connected
background set: for every buffer (of positive dimensions), background
color `bg` and tolerance `tol`, the returned mask is 1 at an in-range
pixel iff that pixel is reachable from some border pixel via a
4-connected path of pixels that are all background-like, where
background-like means Manhattan R,G,B distance to `bg` at most
`min tol 25` and luminance at least `max 200 (luminance bg - 15)`
(`isBgLike`); all other pixels are 0. -/
theorem spec_c1 (img : Img) (bg : RGB) (tol : Nat) (hw : 0 < img.w) (hh : 0 < img.h)
    (x y : Nat) (hx : x < img.w) (hy : y < img.h) :
    buildBackgroundMask img bg tol (y * img.w + x) = true ↔ Reach img bg tol x y :=
  mask_iff_reach img bg tol hw hh x y hx hy

/-- Witness for C1 at a concrete input: the single pixel of a 1x1 white
buffer is marked iff it is border-reachable. -/
theorem spec_c1_witness :
    buildBackgroundMask imgW1 ⟨255, 255, 255⟩ 55 (0 * imgW1.w + 0) = true ↔
      Reach imgW1 ⟨255, 255, 255⟩ 55 0 0 :=
  spec_c1 imgW1 ⟨255, 255, 255⟩ 55 (by decide) (by decide) 0 0 (by decide) (by decide)

/-- C2: mask containment.  For every buffer, mask, tap point, fill
color and tolerance: no channel of a mask-marked pixel is ever changed
by a fill call, and a fill call whose tapped pixel is mask-marked
leaves the buffer unchanged. -/
theorem spec_c2 (img : Img) (x y : Int) (fill : RGB) (bgMask : Nat → Bool)
    (colorTol : Nat) :
    (∀ p, bgMask p = true → ∀ c, c < 4 →
      floodFillWithBgMask img x y fill bgMask colorTol (p * 4 + c) = img.data (p * 4 + c)) ∧
    (bgMask (y.toNat * img.w + x.toNat) = true →
      floodFillWithBgMask img x y fill bgMask colorTol = img.data) := by
  constructor
  · intro p hp c hc
    rcases floodFill_result img x y fill bgMask colorTol with heq | ⟨st, hinv, heq⟩
    · rw [heq]
    · rw [heq]
      obtain ⟨_, hB, hC, _⟩ := hinv
      obtain ⟨e0, e1, e2⟩ := hB p hp
      interval_cases c
      · simpa using e0
      · exact e1
      · exact e2
      · exact hC p
  · exact floodFill_noop_masked img x y fill bgMask colorTol

/-- Witness for C2 at a concrete input: with an all-ones mask, a fill
into a 1x1 white buffer changes nothing. -/
theorem spec_c2_witness :
    floodFillWithBgMask imgW1 0 0 ⟨229, 57, 53⟩ (fun _ => true) 30 (0 * 4 + 0)
        = imgW1.data (0 * 4 + 0) ∧
      floodFillWithBgMask imgW1 0 0 ⟨229, 57, 53⟩ (fun _ => true) 30 = imgW1.data :=
  ⟨(spec_c2 imgW1 0 0 ⟨229, 57, 53⟩ (fun _ => true) 30).1 0 rfl 0 (by decide),
   (spec_c2 imgW1 0 0 ⟨229, 57, 53⟩ (fun _ => true) 30).2 rfl⟩

set_option maxRecDepth 100000 in
/-- C3: the concrete 10x10 scenario.  `estimateBackground` returns
white with tolerance 55; the mask is 1 exactly on the outer 2-pixel
ring; filling at the interior center (4,4) with red recolors exactly
the 16 interior white pixels (R,G,B bytes) and leaves every other byte
of the buffer, including the black square and the outer ring,
unchanged. -/
theorem spec_c3 :
    estimateBackground img10 = (⟨255, 255, 255⟩, 55) ∧
    (∀ p, p < 100 → buildBackgroundMask img10 ⟨255, 255, 255⟩ 55 p = ring2 p) ∧
    (∀ i, i < 400 →
      floodFillWithBgMask img10 4 4 ⟨229, 57, 53⟩
        (buildBackgroundMask img10 ⟨255, 255, 255⟩ 55) 30 i = fill10expected i) :=
  ⟨by decide, by decide, by decide⟩

/-- C4 (amended): every pixel of the buffer either keeps all four of
its original bytes or has its R,G,B bytes overwritten with the fill
color; the alpha byte is never written (in particular it is not set to
255, contrary to the claim as stated). -/
theorem spec_c4 (img : Img) (x y : Int) (fill : RGB) (bgMask : Nat → Bool)
    (colorTol : Nat) :
    ∀ p, (rgbSame (floodFillWithBgMask img x y fill bgMask colorTol) img.data p ∨
          rgbFilled (floodFillWithBgMask img x y fill bgMask colorTol) fill p) ∧
      floodFillWithBgMask img x y fill bgMask colorTol (p * 4 + 3) = img.data (p * 4 + 3) := by
  intro p
  rcases floodFill_result img x y fill bgMask colorTol with heq | ⟨st, hinv, heq⟩
  · rw [heq]
    exact ⟨Or.inl ⟨rfl, rfl, rfl⟩, rfl⟩
  · rw [heq]
    exact ⟨hinv.2.2.2 p, hinv.2.2.1 p⟩

/-- Counterexample for C4 as stated: a fill into a 1x1 buffer whose
pixel has alpha 123 paints the pixel red (it is accepted by the
traversal: its R byte becomes 229) yet leaves alpha at 123, not 255. -/
theorem spec_c4_cex :
    floodFillWithBgMask imgA 0 0 ⟨229, 57, 53⟩ (fun _ => false) 30 0 = 229 ∧
    floodFillWithBgMask imgA 0 0 ⟨229, 57, 53⟩ (fun _ => false) 30 3 = 123 ∧
    (123 : Nat) ≠ 255 := by decide

/-- C5 (amended): there is no transparent-pixel early exit.  The
silent no-ops of a fill call are exactly: out-of-range tap,
mask-marked tap, and (possibly retargeted) start color already equal
to the fill color — none of them consults alpha; and a fill whose
target pixel is fully transparent can modify the buffer (witnessed by
`imgT`). -/
theorem spec_c5 (img : Img) (x y : Int) (fill : RGB) (bgMask : Nat → Bool)
    (colorTol : Nat) :
    ((x < 0 ∨ y < 0 ∨ (img.w : Int) ≤ x ∨ (img.h : Int) ≤ y) →
      floodFillWithBgMask img x y fill bgMask colorTol = img.data) ∧
    (bgMask (y.toNat * img.w + x.toNat) = true →
      floodFillWithBgMask img x y fill bgMask colorTol = img.data) ∧
    (getRGB img.data (fillStart img bgMask x.toNat y.toNat * 4) = fill →
      floodFillWithBgMask img x y fill bgMask colorTol = img.data) ∧
    (imgT.data 3 = 0 ∧
      floodFillWithBgMask imgT 0 0 ⟨229, 57, 53⟩ (fun _ => false) 30 0 = 229) :=
  ⟨floodFill_noop_outside img x y fill bgMask colorTol,
   floodFill_noop_masked img x y fill bgMask colorTol,
   floodFill_noop_target img x y fill bgMask colorTol,
   by decide⟩

/-- Witness for C5 (amended) at a concrete input: the masked-tap no-op
applied to a 1x1 buffer with an all-ones mask. -/
theorem spec_c5_witness :
    floodFillWithBgMask imgT 0 0 ⟨229, 57, 53⟩ (fun _ => true) 30 = imgT.data :=
  (spec_c5 imgT 0 0 ⟨229, 57, 53⟩ (fun _ => true) 30).2.1 rfl

/-- Counterexample for C5 as stated: the target pixel of `imgT` is
fully transparent (alpha byte 0), yet the fill call changes the buffer
(R byte goes from 0 to 229). -/
theorem spec_c5_cex :
    imgT.data 3 = 0 ∧
    floodFillWithBgMask imgT 0 0 ⟨229, 57, 53⟩ (fun _ => false) 30 0 ≠ imgT.data 0 := by
  decide

/-- C6 (amended): a fill call whose (possibly retargeted) starting
pixel already holds exactly the fill color leaves the buffer
byte-identical.  (A second identical call right after a first one is
NOT always a no-op: tap retargeting can move the start to a different
bright region — see the counterexample.) -/
theorem spec_c6 (img : Img) (x y : Int) (fill : RGB) (bgMask : Nat → Bool)
    (colorTol : Nat)
    (h : getRGB img.data (fillStart img bgMask x.toNat y.toNat * 4) = fill) :
    floodFillWithBgMask img x y fill bgMask colorTol = img.data :=
  floodFill_noop_target img x y fill bgMask colorTol h

/-- Witness for C6 (amended) at a concrete input: re-filling a 1x1
buffer already painted red with the same red is a no-op. -/
theorem spec_c6_witness :
    floodFillWithBgMask imgR1 0 0 ⟨229, 57, 53⟩ (fun _ => false) 30 = imgR1.data :=
  spec_c6 imgR1 0 0 ⟨229, 57, 53⟩ (fun _ => false) 30 (by decide)

/-- Counterexample for C6 as stated: on the white/black/white 3x1
buffer, the first fill at (0,0) paints only pixel 0; the second,
byte-identical call retargets (the start is now red, luminance < 230)
to the bright pixel 2 across the black line and paints it too, so the
second call changes byte 8 from 255 to 229. -/
theorem spec_c6_cex :
    img3b.data 8 = 255 ∧
    floodFillWithBgMask img3b 0 0 ⟨229, 57, 53⟩ (fun _ => false) 30 8 = 229 := by
  decide

/-- C7 (amended): for a buffer that is uniformly the background color
`bg`, the mask is entirely 1 provided `bg` is bright enough
(luminance at least 200, the brightness floor of the mask).  (For a
dark `bg` the claim fails — see the counterexample.) -/
theorem spec_c7 (img : Img) (bg : RGB) (tol : Nat) (hw : 0 < img.w) (hh : 0 < img.h)
    (huni : ∀ x y, x < img.w → y < img.h → pixRGB img x y = bg)
    (hlum : 200000 ≤ luminance1000 bg) :
    ∀ x y, x < img.w → y < img.h →
      buildBackgroundMask img bg tol (y * img.w + x) = true := by
  have hbglike : ∀ x y, x < img.w → y < img.h → isBgLike img bg tol x y = true := by
    intro x y hx hy
    unfold isBgLike
    rw [huni x y hx hy]
    have hdist : colorDist bg bg = 0 := by
      unfold colorDist; omega
    refine decide_eq_true ⟨by omega, ?_⟩
    have h15 : luminance1000 bg - 15000 ≤ luminance1000 bg := Nat.sub_le _ _
    omega
  intro x y hx hy
  have hre : ∀ y0, y0 < img.h → Reach img bg tol x y0 := by
    intro y0
    induction y0 with
    | zero =>
      intro hy0
      exact Reach.border x 0 hx hy0 (Or.inr (Or.inr (Or.inl rfl))) (hbglike x 0 hx hy0)
    | succ n ih =>
      intro hy0
      exact Reach.step x n x (n + 1) (ih (by omega)) (Or.inr ⟨rfl, Or.inr rfl⟩)
        hx hy0 (hbglike x (n + 1) hx hy0)
  exact (mask_iff_reach img bg tol hw hh x y hx hy).mpr (hre y hy)

/-- Witness for C7 (amended) at a concrete input: the mask of a 1x1
uniform white buffer is 1 at its only pixel. -/
theorem spec_c7_witness :
    buildBackgroundMask imgW1 ⟨255, 255, 255⟩ 55 (0 * imgW1.w + 0) = true :=
  spec_c7 imgW1 ⟨255, 255, 255⟩ 55 (by decide) (by decide)
    (by
      intro x y hx hy
      have hw1 : imgW1.w = 1 := rfl
      have hh1 : imgW1.h = 1 := rfl
      have hx0 : x = 0 := by omega
      have hy0 : y = 0 := by omega
      subst hx0; subst hy0
      decide)
    (by decide) 0 0 (by decide) (by decide)

/-- Counterexample for C7 as stated: a 1x1 buffer uniformly equal to
the background color black has mask 0 everywhere (black fails the
luminance floor `max 200 (luminance bg - 15)`), so the mask is not
entirely 1 for an arbitrary uniform background. -/
theorem spec_c7_cex :
    imgB.w = 1 ∧ imgB.h = 1 ∧
    (∀ x, x < 1 → ∀ y, y < 1 → pixRGB imgB x y = ⟨0, 0, 0⟩) ∧
    buildBackgroundMask imgB ⟨0, 0, 0⟩ 40 0 = false := by decide

/-- C8 (amended): when the tapped pixel has luminance below 230, the
fill's starting pixel is the FIRST pixel in row-major scan order of
the 7x7 window (`dy` from -3 to 3 outer, `dx` from -3 to 3 inner)
that is in range, not mask-marked and has luminance at least 240, when
one exists; the literal tap point otherwise.  (It is not the nearest
such pixel — see the counterexample.) -/
theorem spec_c8 (img : Img) (bgMask : Nat → Bool) (x y : Nat)
    (h : luminance1000 (getRGB img.data ((y * img.w + x) * 4)) < 230000) :
    fillStart img bgMask x y = specRetarget img bgMask x y :=
  fillStart_eq_specRetarget img bgMask x y h

/-- Witness for C8 (amended) at a concrete input: the dark tap (3,3)
of `img74` retargets to the first scan-order candidate. -/
theorem spec_c8_witness :
    fillStart img74 (fun _ => false) 3 3 = specRetarget img74 (fun _ => false) 3 3 :=
  spec_c8 img74 (fun _ => false) 3 3 (by decide)

/-- Counterexample for C8 as stated: tapping the dark pixel (3,3) of
`img74` retargets to pixel index 0, i.e. (0,0), even though (3,2)
(index 17) is also a valid candidate (in range, unmasked, luminance
255 ≥ 240) and is strictly nearer to the tap (Manhattan distance 1
versus 6) — the scan picks the first hit in row-major order, not the
nearest. -/
theorem spec_c8_cex :
    luminance1000 (getRGB img74.data ((3 * img74.w + 3) * 4)) < 230000 ∧
    fillStart img74 (fun _ => false) 3 3 = 0 * img74.w + 0 ∧
    candB img74 (fun _ => false) 3 2 = true ∧
    (3 - 3 : Int).natAbs + (3 - 2 : Int).natAbs
      < (3 - 0 : Int).natAbs + (3 - 0 : Int).natAbs := by
  decide

/-- C9: `estimateBackground` returns as `bg` the per-channel
round-half-up average of the 88 border samples — four corners, four
edge midpoints, and 20 evenly spaced points along each of the four
border edges (`specEstPts`, duplicates counted as the source does) —
and tolerance 55 when `luminance bg > 220`, else 40. -/
theorem spec_c9 (img : Img) :
    (estimateBackground img).1 =
      ⟨jsRound ((specEstPts img.w img.h).map fun q => (pixRGB img q.1 q.2).r).sum 88,
       jsRound ((specEstPts img.w img.h).map fun q => (pixRGB img q.1 q.2).g).sum 88,
       jsRound ((specEstPts img.w img.h).map fun q => (pixRGB img q.1 q.2).b).sum 88⟩ ∧
    (estimateBackground img).2 =
      (if 220000 < luminance1000 (estimateBackground img).1 then 55 else 40) := by
  constructor
  · rw [estimateBackground_fst, estSamples_length, est_channel_sum RGB.r,
      est_channel_sum RGB.g, est_channel_sum RGB.b]
  · exact estimateBackground_snd img

/-- C10: `estimateBackground` is safe for every buffer with positive
dimensions: every sample coordinate lies in `[0,w) x [0,h)`, so no
out-of-bounds pixel read occurs; and on a 1x1 buffer it returns
exactly the single pixel's color together with the luminance-rule
tolerance. -/
theorem spec_c10 (w h : Nat) (hw : 0 < w) (hh : 0 < h) (img : Img)
    (h1 : img.w = 1) (h2 : img.h = 1) :
    (∀ q ∈ estPts w h, q.1 < w ∧ q.2 < h) ∧
    estimateBackground img =
      (pixRGB img 0 0,
        if 220000 < luminance1000 (pixRGB img 0 0) then 55 else 40) := by
  constructor
  · have hdiv19 : ∀ (a k : Nat), k < 20 → a * k / 19 ≤ a := by
      intro a k hk
      have hm : a * k ≤ a * 19 := Nat.mul_le_mul_left a (by omega)
      have hd : a * k / 19 ≤ a * 19 / 19 := Nat.div_le_div_right hm
      rwa [Nat.mul_div_cancel a (by omega : 0 < 19)] at hd
    intro q hq
    unfold estPts at hq
    simp only [List.mem_append, List.mem_cons, List.mem_singleton,
      List.mem_flatMap, List.mem_range, List.not_mem_nil, or_false] at hq
    have hw2 : w / 2 < w := Nat.div_lt_self hw (by omega)
    have hh2 : h / 2 < h := Nat.div_lt_self hh (by omega)
    rcases hq with ((h' | h' | h' | h' | h' | h' | h' | h') | ⟨k, hk, h'⟩)
    · subst h'; exact ⟨hw, hh⟩
    · subst h'; exact ⟨by omega, hh⟩
    · subst h'; exact ⟨hw, by omega⟩
    · subst h'; exact ⟨by omega, by omega⟩
    · subst h'; exact ⟨hw2, hh⟩
    · subst h'; exact ⟨hw2, by omega⟩
    · subst h'; exact ⟨hw, hh2⟩
    · subst h'; exact ⟨by omega, hh2⟩
    · have hx := hdiv19 (w - 1) k hk
      have hy := hdiv19 (h - 1) k hk
      rcases h' with h' | h' | h' | h' <;> subst h'
      · exact ⟨by omega, hh⟩
      · exact ⟨by omega, by omega⟩
      · exact ⟨hw, by omega⟩
      · exact ⟨by omega, by omega⟩
  · have hpts : estPts img.w img.h = List.replicate 88 ((0, 0) : Nat × Nat) := by
      rw [h1, h2]; decide
    have hs : estSamples img = List.replicate 88 (pixRGB img 0 0) := by
      unfold estSamples
      rw [hpts, List.map_replicate]
    have hjs : ∀ c : Nat, jsRound (88 * c) 88 = c := by
      intro c; unfold jsRound; omega
    have hfst : (estimateBackground img).1 = pixRGB img 0 0 := by
      rw [estimateBackground_fst, hs]
      simp only [List.map_replicate, List.sum_replicate, List.length_replicate,
        smul_eq_mul, hjs]
    have hsnd : (estimateBackground img).2 =
        (if 220000 < luminance1000 (pixRGB img 0 0) then 55 else 40) := by
      rw [estimateBackground_snd, hfst]
    exact Prod.ext hfst hsnd

/-- Witness for C10 at a concrete input: the 1x1 white buffer. -/
theorem spec_c10_witness :
    (∀ q ∈ estPts 1 1, q.1 < 1 ∧ q.2 < 1) ∧
    estimateBackground imgW1 =
      (pixRGB imgW1 0 0,
        if 220000 < luminance1000 (pixRGB imgW1 0 0) then 55 else 40) :=
  spec_c10 1 1 (by decide) (by decide) imgW1 rfl rfl

end ColoringTs
